import Mathlib

/-!
Verification of the justgpt-control-plane deployment agent and project
registry (`src/storage.ts`).

File contents and other byte strings are modelled as `List Char`, one
`Char` per byte of the original text.  Stateful filesystem operations are
modelled by explicit state passing: a file is an `Option (List Char)`
(`none` = the file does not exist).  Fallible operations return `Except`.
External collaborators (the URL parser, the network, the hash function,
the clock and the random-token source) are parameters of the functions
that use them.
-/

namespace ControlPlane

/-- JS `String.prototype.trim` whitespace test (common subset: space, tab,
newline, carriage return, form feed, vertical tab). -/
def isTrimWs (c : Char) : Bool :=
  c = ' ' || c = '\t' || c = '\n' || c = '\r' || c = '\x0c' || c = '\x0b'

/-- JS `String.prototype.trim`: strip whitespace from both ends. -/
def jsTrim (s : List Char) : List Char :=
  ((s.dropWhile isTrimWs).reverse.dropWhile isTrimWs).reverse

/-- JS `str.split(/\r?\n/)`: split at each `\r\n` or `\n`; a lone `\r`
does not separate. -/
def splitLines : List Char → List (List Char)
  | '\r' :: '\n' :: rest => [] :: splitLines rest
  | '\n' :: rest => [] :: splitLines rest
  | c :: rest =>
      match splitLines rest with
      | [] => [[c]]
      | l :: ls => (c :: l) :: ls
  | [] => [[]]

/-- JS `arr.join("\n")`. -/
def joinLines : List (List Char) → List Char
  | [] => []
  | [l] => l
  | l :: ls => l ++ '\n' :: joinLines ls

/-- JS `indexOf(needle, start)` on strings: the least index `i ≥ start`
at which `needle` occurs in `hay`, if any. -/
def indexOfFrom (needle hay : List Char) (start : Nat) : Option Nat :=
  ((List.range (hay.length + 1)).filter
    (fun i => decide (start ≤ i) && needle.isPrefixOf (hay.drop i))).head?

/-! ## Reverse-proxy route patcher (`ensureMcpNginxRoute`, storage.ts 209-234) -/

/-- The exact-match location line `"    location = ${mcpPath} \x7b"` used for
the idempotency check. -/
def locLineOf (mcpPath : List Char) : List Char :=
  "    location = ".data ++ mcpPath ++ " \x7b".data

/-- The server-block marker searched for first. -/
def mcpNeedle : List Char := "\n    server_name mcp.justgpt.ru;\n".data

/-- The insertion anchor (catch-all fallback location) searched for after
the marker. -/
def insertionNeedle : List Char :=
  "\n    location / \x7b\n        return 404;\n    \x7d\n".data

/-- The location block inserted for a mount path and host port. -/
def blockOf (mcpPath : List Char) (hostPort : Nat) : List Char :=
  '\n' :: locLineOf mcpPath ++ '\n' ::
  ("        proxy_pass http://127.0.0.1:".data ++ (Nat.repr hostPort).data ++ ";\n".data ++
   "        proxy_set_header Host $host;\n".data ++
   "        proxy_set_header X-Forwarded-Proto $scheme;\n".data ++
   "        proxy_set_header X-Forwarded-For $proxy_add_x_forwarded_for;\n".data ++
   "        proxy_set_header Connection \"\";\n".data ++
   "    \x7d\n".data)

/-- `ensureMcpNginxRoute(mcpPath, hostPort)` acting on the proxy config
file content `raw`; returns the new content and the `changed` flag, or the
thrown error message. -/
def ensureMcpNginxRoute (mcpPath : List Char) (hostPort : Nat) (raw : List Char) :
    Except (List Char) (List Char × Bool) :=
  if locLineOf mcpPath <:+: raw then .ok (raw, false)
  else
    match indexOfFrom mcpNeedle raw 0 with
    | none => .error "mcp server block not found in nginx site".data
    | some mcpPos =>
        match indexOfFrom insertionNeedle raw mcpPos with
        | none => .error "cannot find insertion point in mcp server block".data
        | some insPos =>
            .ok (raw.take insPos ++ blockOf mcpPath hostPort ++ raw.drop insPos, true)

theorem locLine_infix_block (mcpPath : List Char) (hostPort : Nat) :
    locLineOf mcpPath <:+: blockOf mcpPath hostPort :=
  ⟨['\n'], '\n' ::
    ("        proxy_pass http://127.0.0.1:".data ++ (Nat.repr hostPort).data ++ ";\n".data ++
     "        proxy_set_header Host $host;\n".data ++
     "        proxy_set_header X-Forwarded-Proto $scheme;\n".data ++
     "        proxy_set_header X-Forwarded-For $proxy_add_x_forwarded_for;\n".data ++
     "        proxy_set_header Connection \"\";\n".data ++
     "    \x7d\n".data), rfl⟩

/-- C1: invoking `ensureMcpNginxRoute` twice with the same mount path and
host port modifies the configuration on the first call only: whenever the
first call returns (content `out`, flag `b`), the second call on `out`
returns `false` ("no change") and leaves the content byte-identical. -/
theorem C1_route_patcher_idempotent (mcpPath : List Char) (hostPort : Nat)
    (raw out : List Char) (b : Bool)
    (h : ensureMcpNginxRoute mcpPath hostPort raw = .ok (out, b)) :
    ensureMcpNginxRoute mcpPath hostPort out = .ok (out, false) := by
  have hloc : locLineOf mcpPath <:+: out := by
    unfold ensureMcpNginxRoute at h
    split at h
    next hin =>
      have h2 : (raw, false) = (out, b) := Except.ok.inj h
      injection h2 with h3 h4
      subst h3
      exact hin
    next hnin =>
      split at h
      · exact absurd h (by simp)
      · split at h
        · exact absurd h (by simp)
        · have h2 := Except.ok.inj h
          injection h2 with h3 h4
          subst h3
          exact (locLine_infix_block mcpPath hostPort).trans
            (List.infix_append _ _ _)
  unfold ensureMcpNginxRoute
  rw [if_pos hloc]

def c1Raw : List Char :=
  ("server \x7b\n    server_name mcp.justgpt.ru;\n\n    location = /p/demo/mcp \x7b\n    \x7d\n\n    location / \x7b\n        return 404;\n    \x7d\n\x7d\n").data

/-- C1 witness: a concrete configuration on which the hypothesis of
`C1_route_patcher_idempotent` holds. -/
theorem C1_route_patcher_idempotent_witness :
    ensureMcpNginxRoute "/p/demo/mcp".data 19101 c1Raw = .ok (c1Raw, false) :=
  C1_route_patcher_idempotent "/p/demo/mcp".data 19101 c1Raw c1Raw false (by rfl)

/-! ## Host-port extraction (`readHostPortFromCompose`, storage.ts 194-200) -/

def digitVal (c : Char) : Nat := c.toNat - '0'.toNat

/-- One attempted match of the regex `127\.0\.0\.1:(19\d\x7b3\x7d):8080` at the
head of `s`; on success, the captured host port as a number. -/
def portPatAt : List Char → Option Nat
  | '1' :: '2' :: '7' :: '.' :: '0' :: '.' :: '0' :: '.' :: '1' :: ':' ::
    '1' :: '9' :: d1 :: d2 :: d3 :: ':' :: '8' :: '0' :: '8' :: '0' :: _ =>
      if d1.isDigit && d2.isDigit && d3.isDigit then
        some (19000 + 100 * digitVal d1 + 10 * digitVal d2 + digitVal d3)
      else none
  | _ => none

/-- JS `raw.match(re)` for the port regex: the leftmost match, scanning
start positions left to right. -/
def findComposePort : List Char → Option Nat
  | [] => none
  | c :: rest =>
      match portPatAt (c :: rest) with
      | some p => some p
      | none => findComposePort rest

/-- `readHostPortFromCompose` on the composition descriptor text `raw`
(`composeFile` is the file name used in the error message). -/
def readHostPortFromCompose (composeFile raw : List Char) : Except (List Char) Nat :=
  match findComposePort raw with
  | some p => .ok p
  | none => .error ("cannot find host port mapping in ".data ++ composeFile)

/-- Number of start positions of `raw` at which the port pattern matches
(the number of loopback-to-8080 mappings in the text). -/
def countComposeMatches (raw : List Char) : Nat :=
  ((List.range (raw.length + 1)).filter (fun i => (portPatAt (raw.drop i)).isSome)).length

theorem portPatAt_nil : portPatAt [] = none := rfl

theorem countComposeMatches_eq_zero (raw : List Char) :
    countComposeMatches raw = 0 ↔ ∀ i, portPatAt (raw.drop i) = none := by
  unfold countComposeMatches
  rw [List.length_eq_zero, List.filter_eq_nil_iff]
  constructor
  · intro h i
    by_cases hi : i < raw.length + 1
    · have := h i (List.mem_range.mpr hi)
      simpa [Option.not_isSome_iff_eq_none] using this
    · have hle : raw.length ≤ i := by omega
      rw [List.drop_eq_nil_of_le hle]
      exact portPatAt_nil
  · intro h i _
    simp [h i]

theorem findComposePort_eq_none (raw : List Char) :
    findComposePort raw = none ↔ ∀ i, portPatAt (raw.drop i) = none := by
  induction raw with
  | nil =>
      constructor
      · intro _ i
        rw [List.drop_nil]
        exact portPatAt_nil
      · intro _
        rfl
  | cons c rest ih =>
      constructor
      · intro h i
        unfold findComposePort at h
        cases hp : portPatAt (c :: rest) with
        | some p => rw [hp] at h; exact absurd h (by simp)
        | none =>
            rw [hp] at h
            cases i with
            | zero => exact hp
            | succ j => exact (ih.mp h) j
      · intro h
        have h0 := h 0
        rw [List.drop_zero] at h0
        unfold findComposePort
        rw [h0]
        exact ih.mpr (fun j => h (j + 1))

theorem findComposePort_leftmost (raw : List Char) (p : Nat)
    (h : findComposePort raw = some p) :
    ∃ i, portPatAt (raw.drop i) = some p ∧ ∀ j, j < i → portPatAt (raw.drop j) = none := by
  induction raw with
  | nil => exact absurd h (by simp [findComposePort])
  | cons c rest ih =>
      unfold findComposePort at h
      cases hp : portPatAt (c :: rest) with
      | some q =>
          rw [hp] at h
          refine ⟨0, ?_, ?_⟩
          · rw [List.drop_zero]; rw [hp]; exact congrArg some (Option.some.inj h)
          · intro j hj; omega
      | none =>
          rw [hp] at h
          obtain ⟨i, hi, hlt⟩ := ih h
          refine ⟨i + 1, hi, ?_⟩
          intro j hj
          cases j with
          | zero => exact hp
          | succ k => exact hlt k (by omega)

/-- C4 counterexample: a descriptor text with two loopback-to-8080
mappings on which `readHostPortFromCompose` succeeds (returning the first
port) instead of failing, refuting "fails whenever the text does not
contain exactly one such mapping". -/
def c4TwoRaw : List Char := "127.0.0.1:19001:8080\n127.0.0.1:19002:8080\n".data

theorem C4_not_exactly_one_counterexample :
    countComposeMatches c4TwoRaw = 2 ∧
      readHostPortFromCompose [] c4TwoRaw = .ok 19001 :=
  ⟨by decide, by rfl⟩

/-- C4 (amended): `readHostPortFromCompose` fails with the fatal
configuration error exactly when the text contains zero mappings; when at
least one mapping exists it returns the port of the leftmost one (so with
more than one mapping it returns the first instead of failing). -/
theorem C4_host_port_extraction (composeFile raw : List Char) :
    (readHostPortFromCompose composeFile raw =
        .error ("cannot find host port mapping in ".data ++ composeFile) ↔
      countComposeMatches raw = 0) ∧
    (∀ p, readHostPortFromCompose composeFile raw = .ok p →
      ∃ i, portPatAt (raw.drop i) = some p ∧
        ∀ j, j < i → portPatAt (raw.drop j) = none) := by
  constructor
  · rw [countComposeMatches_eq_zero, ← findComposePort_eq_none]
    unfold readHostPortFromCompose
    cases hf : findComposePort raw with
    | some p => simp
    | none => simp
  · intro p hp
    unfold readHostPortFromCompose at hp
    cases hf : findComposePort raw with
    | some q =>
        rw [hf] at hp
        have hq : q = p := Except.ok.inj hp
        subst hq
        exact findComposePort_leftmost raw q hf
    | none => rw [hf] at hp; exact absurd hp (by simp)

def c4OneRaw : List Char := "    ports:\n      - \"127.0.0.1:19007:8080\"\n".data

/-- C4 witness: the amended theorem applied to a concrete one-mapping
descriptor text. -/
theorem C4_host_port_extraction_witness :
    readHostPortFromCompose [] c4OneRaw = .ok 19007 ∧
      ∃ i, portPatAt (c4OneRaw.drop i) = some 19007 ∧
        ∀ j, j < i → portPatAt (c4OneRaw.drop j) = none :=
  ⟨by rfl, (C4_host_port_extraction [] c4OneRaw).2 19007 (by rfl)⟩

/-! ## Shared environment file (`ensureEnvLine`, storage.ts 137-153) -/

/-- JS `l.startsWith(key + "=")`. -/
def envKeyMatch (key l : List Char) : Bool := (key ++ ['=']).isPrefixOf l

/-- The JS `.filter((l, idx, arr) => !(idx === arr.length - 1 && l === ""))`
step: drop the final array element exactly when it is the empty string. -/
def dropLastEmpty (xs : List (List Char)) : List (List Char) :=
  if xs.getLast? = some [] then xs.dropLast else xs

/-- The line array `ensureEnvLine` joins and writes: every line for `key`
replaced by `key=value`, a final empty line dropped, and `key=value`
appended when no line for `key` was found. -/
def envOutLines (key value raw : List Char) : List (List Char) :=
  let lines := splitLines raw
  let mapped := lines.map (fun l => if envKeyMatch key l then key ++ '=' :: value else l)
  let kept := dropLastEmpty mapped
  if lines.any (fun l => envKeyMatch key l) then kept else kept ++ [key ++ '=' :: value]

/-- `ensureEnvLine(file, key, value)` acting on the prior file content
`raw` (the empty list when the file does not exist); returns the new file
content. -/
def ensureEnvLine (key value raw : List Char) : List Char :=
  joinLines (envOutLines key value raw) ++ ['\n']

/-- The text ends with a newline and the byte before that final newline
(if any) is not itself a newline. -/
def oneTrailingNewline (s : List Char) : Bool :=
  (s.getLast? == some '\n') && !(s.dropLast.getLast? == some '\n')

theorem mem_dropLastEmpty {x : List Char} {xs : List (List Char)}
    (hx : x ∈ xs) (hne : x ≠ []) : x ∈ dropLastEmpty xs := by
  unfold dropLastEmpty
  split
  next hlast =>
    cases xs with
    | nil => exact absurd hx (by simp)
    | cons y ys =>
        have hnil : y :: ys ≠ [] := by simp
        have hsplit := List.dropLast_append_getLast hnil
        have hlast2 : (y :: ys).getLast hnil = [] := by
          have := List.getLast?_eq_getLast (y :: ys) hnil
          rw [this] at hlast
          exact Option.some.inj hlast
        rw [← hsplit] at hx
        rcases List.mem_append.mp hx with h1 | h1
        · exact h1
        · rw [List.mem_singleton] at h1
          rw [hlast2] at h1
          exact absurd h1 hne
  next => exact hx

theorem envKeyMatch_kv (key value : List Char) :
    envKeyMatch key (key ++ '=' :: value) = true := by
  unfold envKeyMatch
  have : key ++ '=' :: value = (key ++ ['=']) ++ value := by simp
  rw [this]
  exact List.isPrefixOf_iff_prefix.mpr (List.prefix_append _ _)

/-- Filtering on "not a key line and not empty" commutes with the
replacement map (replaced lines are key lines both before and after). -/
theorem filter_envMap (key value : List Char) (lines : List (List Char)) :
    (lines.map (fun l => if envKeyMatch key l then key ++ '=' :: value else l)).filter
        (fun l => !envKeyMatch key l && !l.isEmpty) =
      lines.filter (fun l => !envKeyMatch key l && !l.isEmpty) := by
  induction lines with
  | nil => rfl
  | cons l ls ih =>
      by_cases hm : envKeyMatch key l
      · simp only [List.map_cons, List.filter_cons, hm, if_pos, envKeyMatch_kv]
        simpa using ih
      · simp only [List.map_cons, List.filter_cons, if_neg hm,
          Bool.not_eq_true] at ih ⊢
        rw [eq_false_of_ne_true hm]
        split <;> simp [ih]

theorem filter_dropLastEmpty (Q : List Char → Bool) (hQ : Q [] = false)
    (xs : List (List Char)) :
    (dropLastEmpty xs).filter Q = xs.filter Q := by
  unfold dropLastEmpty
  split
  next hlast =>
    cases xs with
    | nil => rfl
    | cons y ys =>
        have hnil : y :: ys ≠ [] := by simp
        have hlast2 : (y :: ys).getLast hnil = [] := by
          have := List.getLast?_eq_getLast (y :: ys) hnil
          rw [this] at hlast
          exact Option.some.inj hlast
        conv_rhs => rw [← List.dropLast_append_getLast hnil]
        rw [List.filter_append, hlast2]
        simp [hQ]
  next => rfl

theorem getLast?_or_of_ne_nil (y : List Char) (hy : y ≠ []) (o : Option Char) :
    y.getLast?.or o = y.getLast? := by
  cases hz : y.getLast? with
  | none => exact absurd (List.getLast?_eq_none_iff.mp hz) hy
  | some z => rfl

theorem joinLines_concat (xs : List (List Char)) (y : List Char) :
    ∃ pre, joinLines (xs ++ [y]) = pre ++ y := by
  induction xs with
  | nil => exact ⟨[], rfl⟩
  | cons x xs ih =>
      obtain ⟨pre, hp⟩ := ih
      obtain ⟨z, zs, hz⟩ : ∃ z zs, xs ++ [y] = z :: zs := by
        cases xs with
        | nil => exact ⟨y, [], rfl⟩
        | cons a as => exact ⟨a, as ++ [y], rfl⟩
      refine ⟨x ++ '\n' :: pre, ?_⟩
      have hstep : joinLines (x :: (xs ++ [y])) = x ++ '\n' :: joinLines (xs ++ [y]) := by
        rw [hz]
        rfl
      rw [List.cons_append, hstep, hp]
      simp

/-- C5 counterexample: with prior content "K=old\n\n\n" (ending in several
newlines), replacing the line for key `K` produces a file ending in three
newlines, not exactly one. -/
theorem C5_trailing_newline_counterexample :
    ensureEnvLine "K".data "v".data "K=old\n\n\n".data = "K=v\n\n\n".data ∧
      oneTrailingNewline (ensureEnvLine "K".data "v".data "K=old\n\n\n".data) = false :=
  ⟨by decide, by decide⟩

/-- C5 (amended): `ensureEnvLine` always produces a line array containing
`key=value` (replacing existing key lines, appending when absent) and
preserving every other non-empty line in order, and the output always ends
with a newline; the output ends with exactly one trailing newline whenever
the key was absent (append case), but in the replace case trailing blank
lines of the prior content (all but one) are kept, so the output can end
with several newlines. -/
theorem C5_ensure_env_line (key value raw : List Char) :
    (key ++ '=' :: value) ∈ envOutLines key value raw ∧
    List.Sublist ((splitLines raw).filter (fun l => !envKeyMatch key l && !l.isEmpty))
      (envOutLines key value raw) ∧
    (ensureEnvLine key value raw).getLast? = some '\n' ∧
    ((splitLines raw).any (fun l => envKeyMatch key l) = false → '\n' ∉ value →
      oneTrailingNewline (ensureEnvLine key value raw) = true) := by
  have hkvne : key ++ '=' :: value ≠ [] := by simp
  refine ⟨?_, ?_, ?_, ?_⟩
  · unfold envOutLines
    by_cases hf : (splitLines raw).any (fun l => envKeyMatch key l) = true
    · simp only [hf, if_true]
      obtain ⟨l, hl, hm⟩ := List.any_eq_true.mp hf
      have hmem : (key ++ '=' :: value) ∈
          (splitLines raw).map
            (fun l => if envKeyMatch key l then key ++ '=' :: value else l) := by
        refine List.mem_map.mpr ⟨l, hl, ?_⟩
        rw [if_pos hm]
      exact mem_dropLastEmpty hmem hkvne
    · simp only [hf, if_false]
      exact List.mem_append_right _ (List.mem_singleton.mpr rfl)
  · unfold envOutLines
    have hQnil : (fun (l : List Char) => !envKeyMatch key l && !l.isEmpty) [] = false := by
      simp
    have h1 := filter_envMap key value (splitLines raw)
    have h2 := filter_dropLastEmpty (fun l => !envKeyMatch key l && !l.isEmpty) hQnil
      ((splitLines raw).map (fun l => if envKeyMatch key l then key ++ '=' :: value else l))
    by_cases hf : (splitLines raw).any (fun l => envKeyMatch key l) = true
    · simp only [hf, if_true]
      rw [← h1, ← h2]
      exact List.filter_sublist _
    · simp only [hf, if_false]
      rw [← h1, ← h2]
      exact (List.filter_sublist _).trans (List.sublist_append_left _ _)
  · unfold ensureEnvLine
    exact List.getLast?_concat _
  · intro hnf hnl
    have hlast2 : ('=' :: value).getLast? ≠ some '\n' := by
      have hne : ('=' :: value) ≠ ([] : List Char) := by simp
      rw [List.getLast?_eq_getLast _ hne]
      intro hc
      have heq := Option.some.inj hc
      have hmem := List.getLast_mem hne
      rw [heq] at hmem
      rcases List.mem_cons.mp hmem with h1 | h1
      · exact absurd h1 (by decide)
      · exact hnl h1
    have hlast : (key ++ '=' :: value).getLast? ≠ some '\n' := by
      rw [List.getLast?_append, getLast?_or_of_ne_nil _ (by simp) _]
      exact hlast2
    unfold ensureEnvLine envOutLines
    simp only [hnf, Bool.false_eq_true, if_false]
    obtain ⟨pre, hpre⟩ := joinLines_concat
      (dropLastEmpty ((splitLines raw).map
        (fun l => if envKeyMatch key l then key ++ '=' :: value else l)))
      (key ++ '=' :: value)
    rw [hpre]
    unfold oneTrailingNewline
    rw [List.dropLast_concat, List.getLast?_concat]
    have h3 : (pre ++ (key ++ '=' :: value)).getLast? = (key ++ '=' :: value).getLast? := by
      rw [List.getLast?_append]
      exact getLast?_or_of_ne_nil _ hkvne _
    rw [h3]
    simp only [beq_self_eq_true, Bool.true_and, Bool.not_eq_true']
    exact beq_eq_false_iff_ne.mpr hlast

/-- C5 witness: the amended theorem applied at a concrete prior content
that does not contain the key. -/
theorem C5_ensure_env_line_witness :
    (splitLines "A=1\n".data).any (fun l => envKeyMatch "K".data l) = false ∧
      '\n' ∉ "v".data ∧
      oneTrailingNewline (ensureEnvLine "K".data "v".data "A=1\n".data) = true :=
  ⟨by decide, by decide,
    (C5_ensure_env_line "K".data "v".data "A=1\n".data).2.2.2 (by decide) (by decide)⟩

/-! ## Project registry (`loadDb`/`saveDb`/`upsertProject`/`markDeployed`,
storage.ts 4-101).  The JSON (de)serialization of the backing file is
abstracted: the backing store is an `Option Db` (`none` = file absent). -/

inductive ProjectType where
  | json | openapi | postgres | mysql
  deriving DecidableEq, Repr

inductive ProjStatus where
  | draft | deployed
  deriving DecidableEq, Repr

structure Project where
  id : String
  type : ProjectType
  createdAt : String
  mcpPath : String
  tokenEnv : String
  status : ProjStatus
  lastDeployAt : Option String
  hostPort : Option Nat
  nginxChanged : Option Bool
  jsonInline : Option String
  jsonUrl : Option String
  deriving DecidableEq, Repr

structure Db where
  projects : List Project
  deriving DecidableEq, Repr

/-- The argument of `upsertProject`: `Omit<Project, "createdAt" | "status"
| "lastDeployAt" | "hostPort" | "nginxChanged">`. -/
structure ProjectInput where
  id : String
  type : ProjectType
  mcpPath : String
  tokenEnv : String
  jsonInline : Option String
  jsonUrl : Option String
  deriving DecidableEq, Repr

def defaultDb : Db := ⟨[]⟩

/-- `loadDb`: a missing backing file yields the default empty registry. -/
def loadDb (store : Option Db) : Db :=
  match store with
  | none => defaultDb
  | some db => db

/-- `saveDb` (atomic write of the whole registry). -/
def saveDb (db : Db) : Option Db := some db

/-- In-place mutation of the first list element with the given id. -/
def replaceFirst (id : String) (u : Project) : List Project → List Project
  | [] => []
  | x :: xs => if x.id = id then u :: xs else x :: replaceFirst id u xs

/-- JS `a ?? b` on optional fields. -/
def coalesce (a b : Option String) : Option String :=
  match a with
  | some v => some v
  | none => b

/-- `upsertProject(filePath, p)`: update the mutable fields of an existing
record with the same id, or insert a new record with defaults; returns the
new backing store and the inserted/updated record.  `now` models
`new Date().toISOString()`. -/
def upsertUpdated (p : ProjectInput) (existing : Project) : Project :=
  { existing with
    type := p.type
    mcpPath := p.mcpPath
    tokenEnv := p.tokenEnv
    jsonInline := coalesce p.jsonInline existing.jsonInline
    jsonUrl := coalesce p.jsonUrl existing.jsonUrl }

def upsertCreated (now : String) (p : ProjectInput) : Project :=
  { id := p.id
    type := p.type
    createdAt := now
    mcpPath := p.mcpPath
    tokenEnv := p.tokenEnv
    status := .draft
    lastDeployAt := none
    hostPort := none
    nginxChanged := none
    jsonInline := coalesce p.jsonInline none
    jsonUrl := coalesce p.jsonUrl none }

def upsertProject (now : String) (store : Option Db) (p : ProjectInput) :
    Option Db × Project :=
  match (loadDb store).projects.find? (fun x => x.id = p.id) with
  | some existing =>
      (saveDb ⟨replaceFirst p.id (upsertUpdated p existing) (loadDb store).projects⟩,
        upsertUpdated p existing)
  | none =>
      (saveDb ⟨(loadDb store).projects ++ [upsertCreated now p]⟩, upsertCreated now p)

/-- The optional `info` argument of `markDeployed`; `some` models a field
that is present with the matching primitive type. -/
structure MarkInfo where
  hostPort : Option Nat
  nginxChanged : Option Bool
  deriving DecidableEq, Repr

/-- `markDeployed(filePath, id, info?)`: returns the new backing store and
the updated record, or `(store, none)` ("not found", no save) when no
record has the id. -/
def markUpdated (now : String) (info : Option MarkInfo) (p : Project) : Project :=
  { p with
    status := .deployed
    lastDeployAt := some now
    hostPort :=
      match info with
      | some i => match i.hostPort with
        | some h => some h
        | none => p.hostPort
      | none => p.hostPort
    nginxChanged :=
      match info with
      | some i => match i.nginxChanged with
        | some b => some b
        | none => p.nginxChanged
      | none => p.nginxChanged }

def markDeployed (now : String) (store : Option Db) (id : String)
    (info : Option MarkInfo) : Option Db × Option Project :=
  match (loadDb store).projects.find? (fun x => x.id = id) with
  | none => (store, none)
  | some p =>
      (saveDb ⟨replaceFirst id (markUpdated now info p) (loadDb store).projects⟩,
        some (markUpdated now info p))

@[simp] theorem loadDb_some (db : Db) : loadDb (some db) = db := rfl

theorem find?_id_some {l : List Project} {id : String} {x : Project}
    (h : l.find? (fun y => y.id = id) = some x) : x.id = id := by
  have h2 := List.find?_some h
  exact of_decide_eq_true h2

theorem mem_replaceFirst {l : List Project} {id : String} {x : Project}
    (u : Project) (h : l.find? (fun y => y.id = id) = some x) :
    u ∈ replaceFirst id u l := by
  induction l with
  | nil => simp at h
  | cons y ys ih =>
      unfold replaceFirst
      by_cases hy : y.id = id
      · rw [if_pos hy]
        exact List.mem_cons_self _ _
      · rw [if_neg hy]
        rw [List.find?_cons_of_neg _ (by simpa using hy)] at h
        exact List.mem_cons_of_mem _ (ih h)

theorem find?_replaceFirst {l : List Project} {id : String} {x : Project}
    {u : Project} (h : l.find? (fun y => y.id = id) = some x) (hu : u.id = id) :
    (replaceFirst id u l).find? (fun y => y.id = id) = some u := by
  induction l with
  | nil => simp at h
  | cons y ys ih =>
      unfold replaceFirst
      by_cases hy : y.id = id
      · rw [if_pos hy]
        exact List.find?_cons_of_pos _ (by simpa using hu)
      · rw [if_neg hy]
        rw [List.find?_cons_of_neg _ (by simpa using hy)] at h
        rw [List.find?_cons_of_neg _ (by simpa using hy)]
        exact ih h

theorem find?_append_none {l l' : List Project} {f : Project → Bool}
    (h : l.find? f = none) : (l ++ l').find? f = l'.find? f := by
  induction l with
  | nil => rfl
  | cons y ys ih =>
      rw [List.find?_cons] at h
      rw [List.cons_append, List.find?_cons]
      cases hy : f y with
      | true => rw [hy] at h; simp at h
      | false => rw [hy] at h; exact ih h

/-- C7: an upsert followed by a load returns the upserted record, whose
id and mutable fields come from the input; re-upserting the same id
changes only the mutable fields (type, mount path, token-env name,
source-reference fields), preserving id, createdAt, status, lastDeployAt,
hostPort and nginxChanged. -/
theorem C7_registry_roundtrip (now now2 : String) (store : Option Db)
    (p q : ProjectInput) (hq : q.id = p.id) :
    (upsertProject now store p).2 ∈ (loadDb (upsertProject now store p).1).projects ∧
    (upsertProject now store p).2.id = p.id ∧
    (upsertProject now store p).2.type = p.type ∧
    (upsertProject now store p).2.mcpPath = p.mcpPath ∧
    (upsertProject now store p).2.tokenEnv = p.tokenEnv ∧
    (upsertProject now2 (upsertProject now store p).1 q).2 =
      { (upsertProject now store p).2 with
        type := q.type
        mcpPath := q.mcpPath
        tokenEnv := q.tokenEnv
        jsonInline := coalesce q.jsonInline (upsertProject now store p).2.jsonInline
        jsonUrl := coalesce q.jsonUrl (upsertProject now store p).2.jsonUrl } := by
  cases hf : (loadDb store).projects.find? (fun x => x.id = p.id) with
  | some existing =>
      have e1 : upsertProject now store p =
          (some ⟨replaceFirst p.id (upsertUpdated p existing) (loadDb store).projects⟩,
            upsertUpdated p existing) := by
        unfold upsertProject
        rw [hf]
        rfl
      have hid : (upsertUpdated p existing).id = p.id := by
        have h0 := find?_id_some hf
        exact h0
      have hfind2 : (replaceFirst p.id (upsertUpdated p existing)
          (loadDb store).projects).find? (fun x => x.id = q.id) =
            some (upsertUpdated p existing) := by
        rw [hq]
        exact find?_replaceFirst hf hid
      have e2 : upsertProject now2
          (some ⟨replaceFirst p.id (upsertUpdated p existing) (loadDb store).projects⟩) q =
          (some ⟨replaceFirst q.id (upsertUpdated q (upsertUpdated p existing))
              (replaceFirst p.id (upsertUpdated p existing) (loadDb store).projects)⟩,
            upsertUpdated q (upsertUpdated p existing)) := by
        unfold upsertProject
        rw [loadDb_some]
        rw [hfind2]
        rfl
      rw [e1]
      refine ⟨mem_replaceFirst _ hf, hid, rfl, rfl, rfl, ?_⟩
      rw [e2]
      rfl
  | none =>
      have e1 : upsertProject now store p =
          (some ⟨(loadDb store).projects ++ [upsertCreated now p]⟩, upsertCreated now p) := by
        unfold upsertProject
        rw [hf]
        rfl
      have hfind2 : ((loadDb store).projects ++ [upsertCreated now p]).find?
          (fun x => x.id = q.id) = some (upsertCreated now p) := by
        rw [hq, find?_append_none hf]
        exact List.find?_cons_of_pos _ (by simp [upsertCreated])
      have e2 : upsertProject now2
          (some ⟨(loadDb store).projects ++ [upsertCreated now p]⟩) q =
          (some ⟨replaceFirst q.id (upsertUpdated q (upsertCreated now p))
              ((loadDb store).projects ++ [upsertCreated now p])⟩,
            upsertUpdated q (upsertCreated now p)) := by
        unfold upsertProject
        rw [loadDb_some]
        rw [hfind2]
        rfl
      rw [e1]
      refine ⟨List.mem_append_right _ (List.mem_singleton.mpr rfl), rfl, rfl, rfl, rfl, ?_⟩
      rw [e2]
      rfl

def c7P : ProjectInput := ⟨"demo", .json, "/p/demo/mcp", "MCP_DEMO_BEARER_TOKEN", none, none⟩

def c7Q : ProjectInput := ⟨"demo", .openapi, "/q", "T2", some "s", none⟩

/-- C7 witness: the round-trip theorem applied to a concrete empty store
and two inputs sharing an id. -/
theorem C7_registry_roundtrip_witness :
    c7Q.id = c7P.id ∧
    ((upsertProject "t0" none c7P).2 ∈ (loadDb (upsertProject "t0" none c7P).1).projects ∧
     (upsertProject "t0" none c7P).2.id = c7P.id ∧
     (upsertProject "t0" none c7P).2.type = c7P.type ∧
     (upsertProject "t0" none c7P).2.mcpPath = c7P.mcpPath ∧
     (upsertProject "t0" none c7P).2.tokenEnv = c7P.tokenEnv ∧
     (upsertProject "t1" (upsertProject "t0" none c7P).1 c7Q).2 =
       { (upsertProject "t0" none c7P).2 with
         type := c7Q.type
         mcpPath := c7Q.mcpPath
         tokenEnv := c7Q.tokenEnv
         jsonInline := coalesce c7Q.jsonInline (upsertProject "t0" none c7P).2.jsonInline
         jsonUrl := coalesce c7Q.jsonUrl (upsertProject "t0" none c7P).2.jsonUrl }) :=
  ⟨rfl, C7_registry_roundtrip "t0" "t1" none c7P c7Q rfl⟩

/-- C8: `markDeployed` on an id absent from the registry returns "not
found" (`none`) without creating a record and leaves the backing store
unchanged (no save is performed). -/
theorem C8_mark_deployed_not_found (now : String) (store : Option Db)
    (id : String) (info : Option MarkInfo)
    (h : ∀ p ∈ (loadDb store).projects, p.id ≠ id) :
    markDeployed now store id info = (store, none) := by
  unfold markDeployed
  have hf : (loadDb store).projects.find? (fun x => x.id = id) = none := by
    rw [List.find?_eq_none]
    intro x hx
    simp [h x hx]
  rw [hf]

def c8Store : Option Db :=
  some ⟨[{ id := "demo"
           type := .json
           createdAt := "t0"
           mcpPath := "/p/demo/mcp"
           tokenEnv := "MCP_DEMO_BEARER_TOKEN"
           status := .draft
           lastDeployAt := none
           hostPort := none
           nginxChanged := none
           jsonInline := none
           jsonUrl := none }]⟩

/-- C8 witness: a concrete registry without the requested id. -/
theorem C8_mark_deployed_not_found_witness :
    markDeployed "t1" c8Store "other" none = (c8Store, none) :=
  C8_mark_deployed_not_found "t1" c8Store "other" none (by decide)

/-! ## JSON model.  The deploy handler calls the platform `JSON.parse` and
`JSON.stringify(v, null, 2)`; they are modelled here over byte lists.
Numbers keep their source lexeme (the claims under verification never
involve numeric re-formatting), and object keys keep JS assignment
semantics for duplicates: the last value wins at the position of the
first occurrence. -/

inductive Json where
  | null
  | bool (b : Bool)
  | num (lexeme : List Char)
  | str (s : List Char)
  | arr (elems : List Json)
  | obj (members : List (List Char × Json))
  deriving Repr

def isJsonWs (c : Char) : Bool :=
  c = ' ' || c = '\t' || c = '\n' || c = '\r'

def skipWs (s : List Char) : List Char := s.dropWhile isJsonWs

def isHexDigit (c : Char) : Bool :=
  c.isDigit || ('a' ≤ c && c ≤ 'f') || ('A' ≤ c && c ≤ 'F')

def hexVal (c : Char) : Nat :=
  if c.isDigit then c.toNat - '0'.toNat
  else if 'a' ≤ c && c ≤ 'f' then c.toNat - 'a'.toNat + 10
  else c.toNat - 'A'.toNat + 10

/-- JSON string body after the opening quote: the decoded content and the
rest after the closing quote.  (`Char.ofNat` maps the UTF-16 surrogate
code units, which are not Unicode scalar values, to NUL.) -/
def parseStrBody : Nat → List Char → Option (List Char × List Char)
  | 0, _ => none
  | _+1, [] => none
  | fuel+1, c :: rest =>
      if c = '"' then some ([], rest)
      else if c = '\\' then
        match rest with
        | [] => none
        | e :: rest2 =>
            let dec : Option (Char × List Char) :=
              if e = '"' then some ('"', rest2)
              else if e = '\\' then some ('\\', rest2)
              else if e = '/' then some ('/', rest2)
              else if e = 'b' then some ('\x08', rest2)
              else if e = 'f' then some ('\x0c', rest2)
              else if e = 'n' then some ('\n', rest2)
              else if e = 'r' then some ('\r', rest2)
              else if e = 't' then some ('\t', rest2)
              else if e = 'u' then
                match rest2 with
                | h1 :: h2 :: h3 :: h4 :: rest3 =>
                    if isHexDigit h1 && isHexDigit h2 && isHexDigit h3 && isHexDigit h4 then
                      some (Char.ofNat
                        (4096 * hexVal h1 + 256 * hexVal h2 + 16 * hexVal h3 + hexVal h4), rest3)
                    else none
                | _ => none
              else none
            match dec with
            | none => none
            | some (ch, rest3) =>
                match parseStrBody fuel rest3 with
                | some (cs, rest4) => some (ch :: cs, rest4)
                | none => none
      else if c.toNat < 32 then none
      else
        match parseStrBody fuel rest with
        | some (cs, rest2) => some (c :: cs, rest2)
        | none => none

/-- JSON integer part: `0` alone or a nonzero digit followed by digits. -/
def parseIntPart : List Char → Option (List Char × List Char)
  | '0' :: r => some (['0'], r)
  | c :: r => if c.isDigit then some (c :: r.takeWhile Char.isDigit, r.dropWhile Char.isDigit) else none
  | [] => none

def parseFracPart : List Char → Option (List Char × List Char)
  | '.' :: r =>
      if (r.takeWhile Char.isDigit).isEmpty then none
      else some ('.' :: r.takeWhile Char.isDigit, r.dropWhile Char.isDigit)
  | s => some ([], s)

def parseExpPart : List Char → Option (List Char × List Char)
  | c :: r =>
      if c = 'e' || c = 'E' then
        match r with
        | s :: r2 =>
            if s = '+' || s = '-' then
              if (r2.takeWhile Char.isDigit).isEmpty then none
              else some (c :: s :: r2.takeWhile Char.isDigit, r2.dropWhile Char.isDigit)
            else if (r.takeWhile Char.isDigit).isEmpty then none
            else some (c :: r.takeWhile Char.isDigit, r.dropWhile Char.isDigit)
        | [] => none
      else some ([], c :: r)
  | [] => some ([], [])

/-- JSON number lexeme `-?(0|[1-9][0-9]*)(\.[0-9]+)?([eE][+-]?[0-9]+)?`. -/
def parseNumLex (s : List Char) : Option (List Char × List Char) :=
  let sgn : List Char × List Char :=
    match s with
    | '-' :: r => (['-'], r)
    | _ => ([], s)
  match parseIntPart sgn.2 with
  | none => none
  | some (ip, s2) =>
      match parseFracPart s2 with
      | none => none
      | some (fp, s3) =>
          match parseExpPart s3 with
          | none => none
          | some (ep, s4) => some (sgn.1 ++ ip ++ fp ++ ep, s4)

def objFind (k : List Char) : List (List Char × Json) → Option Json
  | [] => none
  | (k2, v) :: ms => if k2 = k then some v else objFind k ms

def objErase (k : List Char) : List (List Char × Json) → List (List Char × Json)
  | [] => []
  | (k2, v) :: ms => if k2 = k then objErase k ms else (k2, v) :: objErase k ms

/-- JS object assignment for a member parsed to the left of `ms`: a later
duplicate's value wins, at the position of the first occurrence. -/
def objInsert (k : List Char) (v : Json) (ms : List (List Char × Json)) :
    List (List Char × Json) :=
  match objFind k ms with
  | some v2 => (k, v2) :: objErase k ms
  | none => (k, v) :: ms

mutual

def parseValue : Nat → List Char → Option (Json × List Char)
  | 0, _ => none
  | fuel+1, s =>
      match skipWs s with
      | 'n' :: 'u' :: 'l' :: 'l' :: r => some (.null, r)
      | 't' :: 'r' :: 'u' :: 'e' :: r => some (.bool true, r)
      | 'f' :: 'a' :: 'l' :: 's' :: 'e' :: r => some (.bool false, r)
      | '"' :: r =>
          match parseStrBody (r.length + 1) r with
          | some (cs, r2) => some (.str cs, r2)
          | none => none
      | '[' :: r =>
          match skipWs r with
          | ']' :: r2 => some (.arr [], r2)
          | r1 =>
              match parseElems fuel r1 with
              | some (es, r2) => some (.arr es, r2)
              | none => none
      | '\x7b' :: r =>
          match skipWs r with
          | '\x7d' :: r2 => some (.obj [], r2)
          | r1 =>
              match parseMembers fuel r1 with
              | some (ms, r2) => some (.obj ms, r2)
              | none => none
      | s1 =>
          match parseNumLex s1 with
          | some (lex, r) => some (.num lex, r)
          | none => none

def parseElems : Nat → List Char → Option (List Json × List Char)
  | 0, _ => none
  | fuel+1, s =>
      match parseValue fuel s with
      | none => none
      | some (v, r) =>
          match skipWs r with
          | ',' :: r2 =>
              match parseElems fuel r2 with
              | some (es, r3) => some (v :: es, r3)
              | none => none
          | ']' :: r2 => some ([v], r2)
          | _ => none

def parseMembers : Nat → List Char → Option (List (List Char × Json) × List Char)
  | 0, _ => none
  | fuel+1, s =>
      match skipWs s with
      | '"' :: r =>
          match parseStrBody (r.length + 1) r with
          | none => none
          | some (k, r2) =>
              match skipWs r2 with
              | ':' :: r3 =>
                  match parseValue fuel r3 with
                  | none => none
                  | some (v, r4) =>
                      match skipWs r4 with
                      | ',' :: r5 =>
                          match parseMembers fuel r5 with
                          | some (ms, r6) => some (objInsert k v ms, r6)
                          | none => none
                      | '\x7d' :: r5 => some ([(k, v)], r5)
                      | _ => none
              | _ => none
      | _ => none

end

/-- The platform `JSON.parse`: parse one value, allow trailing
whitespace only.  The fuel `2 * length + 2` dominates the recursion
depth (each nesting level consumes an opening byte and at most two fuel
units; each array/object element consumes at least one byte). -/
def jsonParse (s : List Char) : Option Json :=
  match parseValue (2 * s.length + 2) s with
  | some (v, rest) => if (skipWs rest).isEmpty then some v else none
  | none => none

def hexDigitChar (n : Nat) : Char :=
  if n < 10 then Char.ofNat ('0'.toNat + n) else Char.ofNat ('a'.toNat + n - 10)

/-- `JSON.stringify` escaping of one string character. -/
def escChar (c : Char) : List Char :=
  if c = '"' then ['\\', '"']
  else if c = '\\' then ['\\', '\\']
  else if c = '\x08' then ['\\', 'b']
  else if c = '\x0c' then ['\\', 'f']
  else if c = '\n' then ['\\', 'n']
  else if c = '\r' then ['\\', 'r']
  else if c = '\t' then ['\\', 't']
  else if c.toNat < 32 then
    ['\\', 'u', '0', '0', hexDigitChar (c.toNat / 16), hexDigitChar (c.toNat % 16)]
  else [c]

def escString (s : List Char) : List Char :=
  '"' :: (s.map escChar).flatten ++ ['"']

def nSpaces (n : Nat) : List Char := List.replicate n ' '

mutual

/-- `JSON.stringify(v, null, 2)` at indentation level `ind`. -/
def stringifyVal (ind : Nat) : Json → List Char
  | .null => "null".data
  | .bool true => "true".data
  | .bool false => "false".data
  | .num lex => lex
  | .str s => escString s
  | .arr [] => "[]".data
  | .arr (e :: es) =>
      '[' :: '\n' :: stringifyElems (ind + 2) (e :: es) ++ '\n' :: nSpaces ind ++ [']']
  | .obj [] => "\x7b\x7d".data
  | .obj (m :: ms) =>
      '\x7b' :: '\n' :: stringifyMembers (ind + 2) (m :: ms) ++ '\n' :: nSpaces ind ++ ['\x7d']

def stringifyElems (ind : Nat) : List Json → List Char
  | [] => []
  | [e] => nSpaces ind ++ stringifyVal ind e
  | e :: es => nSpaces ind ++ stringifyVal ind e ++ ',' :: '\n' :: stringifyElems ind es

def stringifyMembers (ind : Nat) : List (List Char × Json) → List Char
  | [] => []
  | [(k, v)] => nSpaces ind ++ escString k ++ ':' :: ' ' :: stringifyVal ind v
  | (k, v) :: ms =>
      nSpaces ind ++ escString k ++ ':' :: ' ' :: stringifyVal ind v ++
        ',' :: '\n' :: stringifyMembers ind ms

end

def stringify2 (v : Json) : List Char := stringifyVal 0 v

/-! ## Source resolver (`POST /deploy`, json branch, storage.ts 298-401,
with `fetchJsonText`, storage.ts 236-258).  The URL parser
(`new URL(...)`, its `toString()` normalization and protocol), the
network, the hash (`sha256Hex`) and the clock are parameters. -/

def JSON_MAX_BYTES : Nat := 2000000

/-- Persisted SourceMeta, read back leniently (`meta: any`); every field
may be absent. -/
structure SourceMeta where
  url : Option (List Char)
  fetchedAt : Option (List Char)
  status : Option Nat
  bytes : Option Nat
  sha256 : Option (List Char)
  etag : Option (List Char)
  lastModified : Option (List Char)
  source : Option (List Char)
  deriving DecidableEq, Repr

structure ReqHeaders where
  accept : List Char
  userAgent : List Char
  ifNoneMatch : Option (List Char)
  ifModifiedSince : Option (List Char)
  deriving DecidableEq, Repr

/-- A network response: status, raw body bytes, and the `etag` /
`last-modified` response headers. -/
structure HttpResp where
  status : Nat
  body : List Char
  etag : Option (List Char)
  lastModified : Option (List Char)
  deriving DecidableEq, Repr

structure FetchOut where
  status : Nat
  text : Option (List Char)
  deriving DecidableEq, Repr

/-- `fetchJsonText` applied to the network's response (the timeout/abort
path is outside the model): 304 and non-ok statuses yield no text; an ok
response whose body exceeds the limit throws; otherwise the status is
reported as 200 together with the body text. -/
def fetchJsonText (resp : HttpResp) : Except (List Char) FetchOut :=
  if resp.status = 304 then .ok ⟨304, none⟩
  else if ¬(200 ≤ resp.status ∧ resp.status ≤ 299) then .ok ⟨resp.status, none⟩
  else if resp.body.length > JSON_MAX_BYTES then
    .error ("json too large: ".data ++ (Nat.repr resp.body.length).data ++
      " bytes (max ".data ++ (Nat.repr JSON_MAX_BYTES).data ++ ")".data)
  else .ok ⟨200, some resp.body⟩

/-- The result of `new URL(...)`: the normalized `toString()` text and
whether the protocol is `http:` or `https:`. -/
structure UrlObj where
  href : List Char
  isHttpProto : Bool
  deriving DecidableEq, Repr

/-- The two files of a json project's data directory: the payload
`data/<id>.json` and the metadata `data/<id>.source.json`. -/
structure ResolveState where
  payload : Option (List Char)
  meta : Option SourceMeta
  deriving DecidableEq, Repr

inductive ResolveOut where
  | err (code : Nat) (msg : List Char)
  | okOut
  deriving DecidableEq, Repr

/-- JS truthiness of `s && s.trim()` for a nullable string. -/
def truthyTrim : Option (List Char) → Bool
  | none => false
  | some s => !(jsTrim s).isEmpty

/-- The request headers of the conditional GET: `accept`/`user-agent`
always; `if-none-match`/`if-modified-since` only when prior metadata was
recorded for exactly this URL and the stored validator is truthy. -/
def requestHeaders (meta : Option SourceMeta) (href : List Char) : ReqHeaders :=
  ⟨"application/json".data, "justgpt-control-plane/0.1.0".data,
    match meta with
    | some m =>
        if m.url = some href then
          match m.etag with
          | some e => if e.isEmpty then none else some e
          | none => none
        else none
    | none => none,
    match meta with
    | some m =>
        if m.url = some href then
          match m.lastModified with
          | some lm => if lm.isEmpty then none else some lm
          | none => none
        else none
    | none => none⟩

/-- The metadata written on a 304 cache hit: the prior object (or an
empty one) with `url`, `fetchedAt` and `status` overwritten. -/
def meta304 (meta : Option SourceMeta) (href now : List Char) : SourceMeta :=
  match meta with
  | some m => { m with url := some href, fetchedAt := some now, status := some 304 }
  | none => ⟨some href, some now, some 304, none, none, none, none, none⟩

/-- The json source resolution step of a provisioning run: strict
priority URL, then inline, then keep-existing/create-empty; returns the
new data-directory state and the outcome (`okOut`, or an HTTP error code
with the response message; thrown errors surface as 500 via the server's
error handler). -/
def resolveJsonSource (parseUrl : List Char → Option UrlObj)
    (net : ReqHeaders → HttpResp) (hash : List Char → List Char)
    (now : List Char) (jsonUrl jsonInline : Option (List Char))
    (st : ResolveState) : ResolveState × ResolveOut :=
  if truthyTrim jsonUrl then
    match parseUrl (jsTrim (jsonUrl.getD [])) with
    | none => (st, .err 400 "bad jsonUrl".data)
    | some u =>
        if ¬u.isHttpProto then (st, .err 400 "jsonUrl must be http(s)".data)
        else
          match fetchJsonText (net (requestHeaders st.meta u.href)) with
          | .error e => (st, .err 500 e)
          | .ok fr =>
              if fr.status = 304 ∧ st.payload.isSome then
                ({ st with meta := some (meta304 st.meta u.href now) }, .okOut)
              else
                match fr.text with
                | some t =>
                    if fr.status = 200 then
                      match jsonParse t with
                      | none => (st, .err 400 "jsonUrl did not return valid JSON".data)
                      | some parsed =>
                          let out := stringify2 parsed ++ ['\n']
                          (⟨some out,
                            some ⟨some u.href, some now, some 200, some out.length,
                              some (hash out),
                              (net (requestHeaders st.meta u.href)).etag,
                              (net (requestHeaders st.meta u.href)).lastModified,
                              none⟩⟩, .okOut)
                    else
                      (st, .err 502 ("jsonUrl fetch failed: status ".data ++
                        (Nat.repr fr.status).data))
                | none =>
                    (st, .err 502 ("jsonUrl fetch failed: status ".data ++
                      (Nat.repr fr.status).data))
  else if truthyTrim jsonInline then
    match jsonParse (jsonInline.getD []) with
    | none => (st, .err 400 "bad jsonInline (must be valid JSON)".data)
    | some parsed =>
        let out := stringify2 parsed ++ ['\n']
        if out.length > JSON_MAX_BYTES then
          (st, .err 413 ("json too large (max ".data ++
            (Nat.repr JSON_MAX_BYTES).data ++ ")".data))
        else
          (⟨some out,
            some ⟨none, some now, some 200, some out.length, some (hash out),
              none, none, some "inline".data⟩⟩, .okOut)
  else if st.payload.isNone then
    (⟨some "\x7b\x7d\n".data,
      some ⟨none, some now, some 200, some 3, some (hash "\x7b\x7d\n".data),
        none, none, some "empty".data⟩⟩, .okOut)
  else (st, .okOut)

/-- C10: a 304 response when no payload file exists on disk is not
treated as a cache hit: the run fails with the gateway-style 502 error
"jsonUrl fetch failed: status 304", and neither the payload nor the
metadata file is written. -/
theorem C10_304_without_payload
    (parseUrl : List Char → Option UrlObj) (net : ReqHeaders → HttpResp)
    (hash : List Char → List Char) (now u0 : List Char)
    (jsonInline : Option (List Char)) (st : ResolveState) (uo : UrlObj)
    (h1 : truthyTrim (some u0) = true)
    (h2 : parseUrl (jsTrim u0) = some uo)
    (h3 : uo.isHttpProto = true)
    (h4 : (net (requestHeaders st.meta uo.href)).status = 304)
    (h5 : st.payload = none) :
    resolveJsonSource parseUrl net hash now (some u0) jsonInline st =
      (st, .err 502 "jsonUrl fetch failed: status 304".data) := by
  have hf : fetchJsonText (net (requestHeaders st.meta uo.href)) = .ok ⟨304, none⟩ := by
    unfold fetchJsonText
    rw [h4]
    simp
  have hmsg : "jsonUrl fetch failed: status ".data ++ (Nat.repr 304).data =
      "jsonUrl fetch failed: status 304".data := by decide
  unfold resolveJsonSource
  rw [if_pos h1]
  simp only [Option.getD_some]
  simp only [h2, h3, hf, h5]
  simp [hmsg]

/-- C2: in the URL branch of a json provisioning run, the conditional GET
carries `If-None-Match` (resp. `If-Modified-Since`) exactly when the
persisted SourceMeta recorded a non-empty etag (resp. lastModified) for
the same URL, a different recorded URL sends no validator headers, and a
304 response leaves the payload byte-identical, rewriting only the
metadata. -/
theorem C2_conditional_fetch
    (parseUrl : List Char → Option UrlObj) (net : ReqHeaders → HttpResp)
    (hash : List Char → List Char) (now u0 : List Char)
    (jsonInline : Option (List Char)) (st : ResolveState) (uo : UrlObj)
    (pl : List Char)
    (h1 : truthyTrim (some u0) = true)
    (h2 : parseUrl (jsTrim u0) = some uo)
    (h3 : uo.isHttpProto = true)
    (h4 : (net (requestHeaders st.meta uo.href)).status = 304)
    (h5 : st.payload = some pl) :
    (resolveJsonSource parseUrl net hash now (some u0) jsonInline st =
      ({ st with meta := some (meta304 st.meta uo.href now) }, .okOut)) ∧
    (∀ m E, st.meta = some m → m.url = some uo.href → m.etag = some E → E ≠ [] →
      (requestHeaders st.meta uo.href).ifNoneMatch = some E) ∧
    (∀ m L, st.meta = some m → m.url = some uo.href → m.lastModified = some L → L ≠ [] →
      (requestHeaders st.meta uo.href).ifModifiedSince = some L) ∧
    (∀ m, st.meta = some m → m.url ≠ some uo.href →
      (requestHeaders st.meta uo.href).ifNoneMatch = none ∧
      (requestHeaders st.meta uo.href).ifModifiedSince = none) := by
  have hf : fetchJsonText (net (requestHeaders st.meta uo.href)) = .ok ⟨304, none⟩ := by
    unfold fetchJsonText
    rw [h4]
    simp
  refine ⟨?_, ?_, ?_, ?_⟩
  · unfold resolveJsonSource
    rw [if_pos h1]
    simp only [Option.getD_some]
    simp only [h2, h3, hf, h5]
    simp
  · intro m E hm hurl hetag hE
    unfold requestHeaders
    rw [hm]
    simp only [if_pos hurl]
    rw [hetag]
    cases E with
    | nil => exact absurd rfl hE
    | cons a as => simp
  · intro m L hm hurl hlm hL
    unfold requestHeaders
    rw [hm]
    simp only [if_pos hurl]
    rw [hlm]
    cases L with
    | nil => exact absurd rfl hL
    | cons a as => simp
  · intro m hm hurl
    unfold requestHeaders
    rw [hm]
    simp [hurl]

def c10Url : List Char := "http://u/d.json".data

def c10ParseUrl : List Char → Option UrlObj := fun s => some ⟨s, true⟩

def c10Net : ReqHeaders → HttpResp := fun _ => ⟨304, [], none, none⟩

def c10St : ResolveState := ⟨none, none⟩

/-- C10 witness: a concrete 304 response with no payload on disk. -/
theorem C10_304_without_payload_witness :
    truthyTrim (some c10Url) = true ∧
    c10ParseUrl (jsTrim c10Url) = some ⟨c10Url, true⟩ ∧
    (c10Net (requestHeaders c10St.meta (⟨c10Url, true⟩ : UrlObj).href)).status = 304 ∧
    c10St.payload = none ∧
    resolveJsonSource c10ParseUrl c10Net (fun _ => []) "T".data (some c10Url) none c10St =
      (c10St, .err 502 "jsonUrl fetch failed: status 304".data) :=
  ⟨by decide, by decide, rfl, rfl,
    C10_304_without_payload c10ParseUrl c10Net (fun _ => []) "T".data c10Url none c10St
      ⟨c10Url, true⟩ (by decide) (by decide) rfl rfl rfl⟩

def c2Url : List Char := "http://u/d.json".data

def c2Meta : SourceMeta :=
  ⟨some c2Url, none, none, none, none, some "E".data, some "L".data, none⟩

def c2St : ResolveState := ⟨some "old".data, some c2Meta⟩

def c2ParseUrl : List Char → Option UrlObj := fun s => some ⟨s, true⟩

def c2Net : ReqHeaders → HttpResp := fun _ => ⟨304, [], none, none⟩

/-- C2 witness: a concrete conditional fetch whose prior metadata records
etag "E" and lastModified "L" for the fetched URL, answered 304. -/
theorem C2_conditional_fetch_witness :
    truthyTrim (some c2Url) = true ∧
    c2ParseUrl (jsTrim c2Url) = some ⟨c2Url, true⟩ ∧
    (c2Net (requestHeaders c2St.meta (⟨c2Url, true⟩ : UrlObj).href)).status = 304 ∧
    c2St.payload = some "old".data ∧
    (resolveJsonSource c2ParseUrl c2Net (fun _ => []) "T".data (some c2Url) none c2St =
      ({ c2St with meta := some (meta304 c2St.meta (⟨c2Url, true⟩ : UrlObj).href "T".data) },
        .okOut)) ∧
    (requestHeaders c2St.meta (⟨c2Url, true⟩ : UrlObj).href).ifNoneMatch = some "E".data ∧
    (requestHeaders c2St.meta (⟨c2Url, true⟩ : UrlObj).href).ifModifiedSince = some "L".data := by
  have h := C2_conditional_fetch c2ParseUrl c2Net (fun _ => []) "T".data c2Url none c2St
    ⟨c2Url, true⟩ "old".data (by decide) (by decide) rfl rfl rfl
  exact ⟨by decide, by decide, rfl, rfl, h.1,
    h.2.1 c2Meta "E".data rfl rfl rfl (by decide),
    h.2.2.1 c2Meta "L".data rfl rfl rfl (by decide)⟩

/-- C9: strict source priority for json provisioning.  With a (truthy)
URL argument the run is the URL fetch and the inline content is ignored;
otherwise truthy inline content is parsed and used (the network and URL
parser are never consulted): a parse failure is a 400, success writes the
canonical re-serialization and inline provenance; with neither argument,
an existing payload is left untouched, and a missing one is materialized
as the canonical empty object with provenance "empty". -/
theorem C9_source_priority
    (parseUrl : List Char → Option UrlObj) (net : ReqHeaders → HttpResp)
    (hash : List Char → List Char) (now : List Char)
    (jsonUrl jsonInline : Option (List Char)) (st : ResolveState) :
    (truthyTrim jsonUrl = true → ∀ ji2,
      resolveJsonSource parseUrl net hash now jsonUrl jsonInline st =
        resolveJsonSource parseUrl net hash now jsonUrl ji2 st) ∧
    (truthyTrim jsonUrl = false → truthyTrim jsonInline = true →
      (∀ (pu2 : List Char → Option UrlObj) (net2 : ReqHeaders → HttpResp),
        resolveJsonSource parseUrl net hash now jsonUrl jsonInline st =
          resolveJsonSource pu2 net2 hash now jsonUrl jsonInline st) ∧
      (jsonParse (jsonInline.getD []) = none →
        resolveJsonSource parseUrl net hash now jsonUrl jsonInline st =
          (st, .err 400 "bad jsonInline (must be valid JSON)".data)) ∧
      (∀ v, jsonParse (jsonInline.getD []) = some v →
        ¬(stringify2 v ++ ['\n']).length > JSON_MAX_BYTES →
        resolveJsonSource parseUrl net hash now jsonUrl jsonInline st =
          (⟨some (stringify2 v ++ ['\n']),
            some ⟨none, some now, some 200, some (stringify2 v ++ ['\n']).length,
              some (hash (stringify2 v ++ ['\n'])), none, none,
              some "inline".data⟩⟩, .okOut))) ∧
    (truthyTrim jsonUrl = false → truthyTrim jsonInline = false →
      st.payload.isSome = true →
      resolveJsonSource parseUrl net hash now jsonUrl jsonInline st = (st, .okOut)) ∧
    (truthyTrim jsonUrl = false → truthyTrim jsonInline = false →
      st.payload = none →
      resolveJsonSource parseUrl net hash now jsonUrl jsonInline st =
        (⟨some "\x7b\x7d\n".data,
          some ⟨none, some now, some 200, some 3, some (hash "\x7b\x7d\n".data),
            none, none, some "empty".data⟩⟩, .okOut)) := by
  refine ⟨?_, ?_, ?_, ?_⟩
  · intro hu ji2
    unfold resolveJsonSource
    rw [if_pos hu, if_pos hu]
  · intro hu hi
    refine ⟨?_, ?_, ?_⟩
    · intro pu2 net2
      unfold resolveJsonSource
      rw [if_neg (by simp [hu])]
      rw [if_pos hi]
      rw [if_neg (by simp [hu])]
    · intro hp
      unfold resolveJsonSource
      rw [if_neg (by simp [hu]), if_pos hi, hp]
    · intro v hp hle
      unfold resolveJsonSource
      rw [if_neg (by simp [hu]), if_pos hi, hp]
      simp only [if_neg hle]
  · intro hu hi hp
    unfold resolveJsonSource
    rw [if_neg (by simp [hu]), if_neg (by simp [hi]),
      if_neg (by simp [Option.isNone_iff_eq_none]; intro hc; rw [hc] at hp; simp at hp)]
  · intro hu hi hp
    unfold resolveJsonSource
    rw [if_neg (by simp [hu]), if_neg (by simp [hi]), if_pos (by simp [hp])]

def c9StSome : ResolveState := ⟨some "keep".data, none⟩

def c9StNone : ResolveState := ⟨none, none⟩

/-- C9 witness: each priority clause applied at a concrete input. -/
theorem C9_source_priority_witness :
    (resolveJsonSource (fun s => some ⟨s, true⟩) (fun _ => ⟨500, [], none, none⟩)
        (fun _ => []) "T".data (some "http://u".data) (some "ignored".data) c9StNone =
      resolveJsonSource (fun s => some ⟨s, true⟩) (fun _ => ⟨500, [], none, none⟩)
        (fun _ => []) "T".data (some "http://u".data) none c9StNone) ∧
    (resolveJsonSource (fun s => some ⟨s, true⟩) (fun _ => ⟨500, [], none, none⟩)
        (fun _ => []) "T".data none (some "\x7b\x7d".data) c9StSome =
      (⟨some ("\x7b\x7d".data ++ ['\n']),
        some ⟨none, some "T".data, some 200, some ("\x7b\x7d".data ++ ['\n']).length,
          some [], none, none, some "inline".data⟩⟩, .okOut)) ∧
    (resolveJsonSource (fun s => some ⟨s, true⟩) (fun _ => ⟨500, [], none, none⟩)
        (fun _ => []) "T".data none none c9StSome = (c9StSome, .okOut)) ∧
    (resolveJsonSource (fun s => some ⟨s, true⟩) (fun _ => ⟨500, [], none, none⟩)
        (fun _ => []) "T".data none none c9StNone =
      (⟨some "\x7b\x7d\n".data,
        some ⟨none, some "T".data, some 200, some 3, some [],
          none, none, some "empty".data⟩⟩, .okOut)) := by
  refine ⟨?_, ?_, ?_, ?_⟩
  · exact (C9_source_priority (fun s => some ⟨s, true⟩) (fun _ => ⟨500, [], none, none⟩)
      (fun _ => []) "T".data (some "http://u".data) (some "ignored".data) c9StNone).1
      (by decide) none
  · have h := (C9_source_priority (fun s => some ⟨s, true⟩) (fun _ => ⟨500, [], none, none⟩)
      (fun _ => []) "T".data none (some "\x7b\x7d".data) c9StSome).2.1
      rfl (by decide)
    have h2 := h.2.2 (.obj []) rfl (by decide)
    exact h2
  · exact (C9_source_priority (fun s => some ⟨s, true⟩) (fun _ => ⟨500, [], none, none⟩)
      (fun _ => []) "T".data none none c9StSome).2.2.1 rfl rfl rfl
  · exact (C9_source_priority (fun s => some ⟨s, true⟩) (fun _ => ⟨500, [], none, none⟩)
      (fun _ => []) "T".data none none c9StNone).2.2.2 rfl rfl rfl

/-! ## Credential provisioning (`readEnvValue`, storage.ts 155-164, and
the token step of `POST /deploy`, storage.ts 417-421 and 434-442). -/

/-- The scan of `readEnvValue`: skip empty and `#` lines, return the
trimmed value of the first `KEY=` line. -/
def readEnvLines (key : List Char) : List (List Char) → Option (List Char)
  | [] => none
  | l :: ls =>
      if l.isEmpty || l.head? = some '#' then readEnvLines key ls
      else if (key ++ ['=']).isPrefixOf l then some (jsTrim (l.drop (key.length + 1)))
      else readEnvLines key ls

/-- `readEnvValue(file, key)` on the env file content (`none` = absent). -/
def readEnvValue (key : List Char) (file : Option (List Char)) : Option (List Char) :=
  match file with
  | none => none
  | some raw => readEnvLines key (splitLines raw)

/-- The token step of a provisioning run: reuse a truthy existing value
(no write), otherwise write a fresh random token; returns the new env
file, the token, and `tokenCreated`. -/
def tokenStep (envFile : Option (List Char)) (key rnd : List Char) :
    Option (List Char) × List Char × Bool :=
  match readEnvValue key envFile with
  | some v =>
      if v.isEmpty then (some (ensureEnvLine key rnd (envFile.getD [])), rnd, true)
      else (envFile, v, false)
  | none => (some (ensureEnvLine key rnd (envFile.getD [])), rnd, true)

/-- The `token` field of the deploy result:
`tokenCreated ? token : null`. -/
def deployTokenField (t : Option (List Char) × List Char × Bool) : Option (List Char) :=
  if t.2.2 then some t.2.1 else none

/-- C6: when the shared env file already holds a (non-empty) value for
the project's token variable, that value is reused unchanged, the file is
not rewritten, and the result's token field is null; conversely a
non-null token field occurs only on a run that generated the fresh random
token and wrote it to the env file. -/
theorem C6_token_reuse (envFile : Option (List Char)) (key rnd v : List Char)
    (h : readEnvValue key envFile = some v) (hv : v ≠ []) :
    tokenStep envFile key rnd = (envFile, v, false) ∧
    deployTokenField (tokenStep envFile key rnd) = none ∧
    (∀ (envFile2 : Option (List Char)) (key2 rnd2 t : List Char),
      deployTokenField (tokenStep envFile2 key2 rnd2) = some t →
      t = rnd2 ∧ tokenStep envFile2 key2 rnd2 =
        (some (ensureEnvLine key2 rnd2 (envFile2.getD [])), rnd2, true)) := by
  have hstep : tokenStep envFile key rnd = (envFile, v, false) := by
    have hve : v.isEmpty = false := by
      cases v with
      | nil => exact absurd rfl hv
      | cons a as => rfl
    unfold tokenStep
    rw [h]
    dsimp only
    rw [hve]
    simp
  refine ⟨hstep, ?_, ?_⟩
  · rw [hstep]
    rfl
  · intro envFile2 key2 rnd2 t ht
    unfold tokenStep at ht ⊢
    cases h2 : readEnvValue key2 envFile2 with
    | some v2 =>
        rw [h2] at ht
        dsimp only at ht ⊢
        cases hv2 : v2.isEmpty with
        | true =>
            rw [hv2] at ht
            simp only [if_true] at ht
            unfold deployTokenField at ht
            simp at ht
            simp [ht]
        | false =>
            rw [hv2] at ht
            simp [deployTokenField] at ht
    | none =>
        rw [h2] at ht
        dsimp only at ht ⊢
        unfold deployTokenField at ht
        simp at ht
        simp [ht]

/-- C6 witness: a concrete env file already holding the token. -/
theorem C6_token_reuse_witness :
    readEnvValue "MCP_DEMO_BEARER_TOKEN".data
        (some "MCP_DEMO_BEARER_TOKEN=abc\n".data) = some "abc".data ∧
    "abc".data ≠ ([] : List Char) ∧
    tokenStep (some "MCP_DEMO_BEARER_TOKEN=abc\n".data) "MCP_DEMO_BEARER_TOKEN".data
        "zzz".data = (some "MCP_DEMO_BEARER_TOKEN=abc\n".data, "abc".data, false) ∧
    deployTokenField (tokenStep (some "MCP_DEMO_BEARER_TOKEN=abc\n".data)
        "MCP_DEMO_BEARER_TOKEN".data "zzz".data) = none := by
  have h := C6_token_reuse (some "MCP_DEMO_BEARER_TOKEN=abc\n".data)
    "MCP_DEMO_BEARER_TOKEN".data "zzz".data "abc".data (by decide) (by decide)
  exact ⟨by decide, by decide, h.1, h.2.1⟩

/-! ## C3: the size guard. -/

theorem dropWhile_space_replicate_append (p : Char → Bool) (hp : p ' ' = true)
    (n : Nat) (l : List Char) :
    (List.replicate n ' ' ++ l).dropWhile p = l.dropWhile p := by
  induction n with
  | zero => rfl
  | succ m ih =>
      rw [List.replicate_succ, List.cons_append, List.dropWhile_cons_of_pos hp]
      exact ih

theorem skipWs_replicate_space (n : Nat) : skipWs (List.replicate n ' ') = [] := by
  unfold skipWs
  rw [← List.append_nil (List.replicate n ' ')]
  rw [dropWhile_space_replicate_append _ (by decide)]
  rfl

/-- An inline source text of 2,000,001 bytes: `\x7b\x7d` followed by
1,999,999 spaces. -/
def c3Big : List Char := '\x7b' :: '\x7d' :: List.replicate 1999999 ' '

theorem c3Big_length : c3Big.length = 2000001 := by
  unfold c3Big
  rw [List.length_cons, List.length_cons, List.length_replicate]

theorem truthyTrim_braces_spaces (n : Nat) :
    truthyTrim (some ('\x7b' :: '\x7d' :: List.replicate n ' ')) = true := by
  unfold truthyTrim jsTrim
  dsimp only
  rw [List.dropWhile_cons_of_neg (by decide)]
  rw [show ('\x7b' :: '\x7d' :: List.replicate n ' ').reverse
      = List.replicate n ' ' ++ ['\x7d', '\x7b'] from by
    rw [List.reverse_cons, List.reverse_cons, List.reverse_replicate,
      List.append_assoc]
    rw [show (['\x7d'] ++ ['\x7b'] : List Char) = ['\x7d', '\x7b'] from rfl]]
  rw [dropWhile_space_replicate_append _ (by decide)]
  rw [List.dropWhile_cons_of_neg (by decide)]
  rfl

theorem parseValue_braces_spaces (fuel n : Nat) :
    parseValue (fuel + 1) ('\x7b' :: '\x7d' :: List.replicate n ' ') =
      some (.obj [], List.replicate n ' ') := by
  have h1 : skipWs ('\x7b' :: '\x7d' :: List.replicate n ' ') =
      '\x7b' :: '\x7d' :: List.replicate n ' ' := by
    unfold skipWs
    rw [List.dropWhile_cons_of_neg (by decide)]
  have h2 : skipWs ('\x7d' :: List.replicate n ' ') =
      '\x7d' :: List.replicate n ' ' := by
    unfold skipWs
    rw [List.dropWhile_cons_of_neg (by decide)]
  unfold parseValue
  rw [h1]
  simp only [h2]

theorem jsonParse_braces_spaces (n : Nat) :
    jsonParse ('\x7b' :: '\x7d' :: List.replicate n ' ') = some (.obj []) := by
  unfold jsonParse
  rw [show 2 * ('\x7b' :: '\x7d' :: List.replicate n ' ').length + 2 =
      (2 * ('\x7b' :: '\x7d' :: List.replicate n ' ').length + 1) + 1 from by omega]
  rw [parseValue_braces_spaces]
  dsimp only
  rw [skipWs_replicate_space]
  rfl

theorem stringify2_emptyObj : stringify2 (.obj []) = "\x7b\x7d".data := by
  simp [stringify2, stringifyVal]

theorem resolve_braces_spaces (n : Nat) :
    resolveJsonSource (fun _ => none) (fun _ => ⟨0, [], none, none⟩) (fun _ => [])
        "T".data none (some ('\x7b' :: '\x7d' :: List.replicate n ' '))
        ⟨some "old".data, none⟩ =
      (⟨some "\x7b\x7d\n".data,
        some ⟨none, some "T".data, some 200, some 3, some [], none, none,
          some "inline".data⟩⟩, .okOut) := by
  unfold resolveJsonSource
  rw [if_neg (by decide)]
  rw [if_pos (truthyTrim_braces_spaces n)]
  simp only [Option.getD_some]
  rw [jsonParse_braces_spaces]
  dsimp only
  rw [stringify2_emptyObj]
  rw [if_neg (by decide)]
  rfl

/-- C3 counterexample: an inline source payload of 2,000,001 bytes whose
canonical re-serialization is tiny; the run succeeds instead of failing
too-large, and overwrites the previously persisted payload file. -/
theorem C3_inline_size_counterexample :
    c3Big.length = 2000001 ∧
    resolveJsonSource (fun _ => none) (fun _ => ⟨0, [], none, none⟩) (fun _ => [])
        "T".data none (some c3Big) ⟨some "old".data, none⟩ =
      (⟨some "\x7b\x7d\n".data,
        some ⟨none, some "T".data, some 200, some 3, some [], none, none,
          some "inline".data⟩⟩, .okOut) :=
  ⟨c3Big_length, resolve_braces_spaces 1999999⟩

/-- C3 (amended): the remote size guard applies to the raw response body
(an ok response body over 2,000,000 bytes throws before any write, state
unchanged), while the inline size guard applies to the canonical
re-serialization of the parsed payload (over the limit fails with 413,
state unchanged) — not to the supplied inline text itself. -/
theorem C3_size_guard
    (parseUrl : List Char → Option UrlObj) (net : ReqHeaders → HttpResp)
    (hash : List Char → List Char) (now u0 : List Char)
    (ji : Option (List Char)) (st : ResolveState) (uo : UrlObj) :
    (truthyTrim (some u0) = true → parseUrl (jsTrim u0) = some uo →
      uo.isHttpProto = true →
      (net (requestHeaders st.meta uo.href)).status = 200 →
      (net (requestHeaders st.meta uo.href)).body.length > JSON_MAX_BYTES →
      resolveJsonSource parseUrl net hash now (some u0) ji st =
        (st, .err 500 ("json too large: ".data ++
          (Nat.repr (net (requestHeaders st.meta uo.href)).body.length).data ++
          " bytes (max ".data ++ (Nat.repr JSON_MAX_BYTES).data ++ ")".data))) ∧
    (∀ inl v, truthyTrim (some inl) = true → jsonParse inl = some v →
      (stringify2 v ++ ['\n']).length > JSON_MAX_BYTES →
      resolveJsonSource parseUrl net hash now none (some inl) st =
        (st, .err 413 ("json too large (max ".data ++
          (Nat.repr JSON_MAX_BYTES).data ++ ")".data))) := by
  constructor
  · intro h1 h2 h3 hst hbig
    have hf : fetchJsonText (net (requestHeaders st.meta uo.href)) =
        .error ("json too large: ".data ++
          (Nat.repr (net (requestHeaders st.meta uo.href)).body.length).data ++
          " bytes (max ".data ++ (Nat.repr JSON_MAX_BYTES).data ++ ")".data) := by
      unfold fetchJsonText
      rw [hst]
      rw [if_neg (by decide), if_neg (by decide), if_pos hbig]
    unfold resolveJsonSource
    rw [if_pos h1]
    simp only [Option.getD_some]
    simp only [h2, h3, hf]
    simp only [not_true, if_false]
  · intro inl v h1 hp hbig
    unfold resolveJsonSource
    rw [if_neg (by decide)]
    rw [if_pos h1]
    simp only [Option.getD_some]
    rw [hp]
    dsimp only
    rw [if_pos hbig]

theorem parseStrBody_repA (fuel : Nat) :
    ∀ (n : Nat) (rest : List Char), n < fuel →
      parseStrBody fuel (List.replicate n 'a' ++ '"' :: rest) =
        some (List.replicate n 'a', rest) := by
  induction fuel with
  | zero => intro n rest h; omega
  | succ f ih =>
      intro n rest h
      cases n with
      | zero =>
          rw [List.replicate_zero, List.nil_append]
          unfold parseStrBody
          rw [if_pos rfl]
      | succ m =>
          rw [List.replicate_succ, List.cons_append]
          unfold parseStrBody
          rw [if_neg (by decide), if_neg (by decide), if_neg (by decide)]
          rw [ih m rest (by omega)]

theorem truthyTrim_quoted_as (n : Nat) :
    truthyTrim (some ('"' :: (List.replicate n 'a' ++ ['"']))) = true := by
  have hrev : ('"' :: (List.replicate n 'a' ++ ['"'])).reverse =
      '"' :: (List.replicate n 'a' ++ ['"']) := by
    rw [List.reverse_cons, List.reverse_append, List.reverse_replicate]
    rw [show (['"'] : List Char).reverse = ['"'] from rfl]
    rw [List.append_assoc]
    rfl
  unfold truthyTrim jsTrim
  dsimp only
  rw [List.dropWhile_cons_of_neg (by decide)]
  rw [hrev]
  rw [List.dropWhile_cons_of_neg (by decide)]
  rw [hrev]
  rfl

theorem parseValue_quoted_as (fuel n : Nat) :
    parseValue (fuel + 1) ('"' :: (List.replicate n 'a' ++ ['"'])) =
      some (.str (List.replicate n 'a'), []) := by
  have h1 : skipWs ('"' :: (List.replicate n 'a' ++ ['"'])) =
      '"' :: (List.replicate n 'a' ++ ['"']) := by
    unfold skipWs
    rw [List.dropWhile_cons_of_neg (by decide)]
  have hlen : (List.replicate n 'a' ++ ['"']).length = n + 1 := by
    rw [List.length_append, List.length_replicate, List.length_singleton]
  have hsb : parseStrBody ((List.replicate n 'a' ++ ['"']).length + 1)
      (List.replicate n 'a' ++ ['"']) = some (List.replicate n 'a', []) := by
    rw [hlen]
    rw [show (List.replicate n 'a' ++ ['"'] : List Char) =
        List.replicate n 'a' ++ '"' :: [] from rfl]
    exact parseStrBody_repA (n + 1 + 1) n [] (by omega)
  unfold parseValue
  rw [h1]
  simp only [hsb]

theorem jsonParse_quoted_as (n : Nat) :
    jsonParse ('"' :: (List.replicate n 'a' ++ ['"'])) =
      some (.str (List.replicate n 'a')) := by
  unfold jsonParse
  rw [show 2 * ('"' :: (List.replicate n 'a' ++ ['"'])).length + 2 =
      (2 * ('"' :: (List.replicate n 'a' ++ ['"'])).length + 1) + 1 from by omega]
  rw [parseValue_quoted_as]
  rfl

theorem flatten_map_escChar_repA (n : Nat) :
    ((List.replicate n 'a').map escChar).flatten = List.replicate n 'a' := by
  induction n with
  | zero => rfl
  | succ m ih =>
      rw [List.replicate_succ, List.map_cons, List.flatten_cons, ih]
      rw [show escChar 'a' = ['a'] from rfl]
      rfl

theorem stringify2_strRepA_length (n : Nat) :
    (stringify2 (.str (List.replicate n 'a')) ++ ['\n']).length = n + 3 := by
  rw [show stringify2 (.str (List.replicate n 'a')) =
      '"' :: ((List.replicate n 'a').map escChar).flatten ++ ['"'] from by
    simp [stringify2, stringifyVal, escString]]
  rw [flatten_map_escChar_repA]
  simp only [List.length_append, List.length_cons, List.length_replicate,
    List.length_singleton, List.length_nil]

def c3RemNet : ReqHeaders → HttpResp :=
  fun _ => ⟨200, List.replicate 2000001 'a', none, none⟩

def c3PU : List Char → Option UrlObj := fun s => some ⟨s, true⟩

def c3St : ResolveState := ⟨none, none⟩

def c3Inl : List Char := '"' :: (List.replicate 2000001 'a' ++ ['"'])

/-- C3 witness: the amended theorem applied to a concrete 2,000,001-byte
remote body and to a concrete inline string whose canonical form exceeds
the limit. -/
theorem C3_size_guard_witness :
    (truthyTrim (some "http://u".data) = true ∧
     c3PU (jsTrim "http://u".data) = some ⟨"http://u".data, true⟩ ∧
     (c3RemNet (requestHeaders c3St.meta (⟨"http://u".data, true⟩ : UrlObj).href)).status
        = 200 ∧
     (c3RemNet (requestHeaders c3St.meta
        (⟨"http://u".data, true⟩ : UrlObj).href)).body.length > JSON_MAX_BYTES ∧
     resolveJsonSource c3PU c3RemNet (fun _ => []) "T".data
        (some "http://u".data) none c3St =
       (c3St, .err 500 ("json too large: ".data ++
         (Nat.repr (c3RemNet (requestHeaders c3St.meta
           (⟨"http://u".data, true⟩ : UrlObj).href)).body.length).data ++
         " bytes (max ".data ++ (Nat.repr JSON_MAX_BYTES).data ++ ")".data))) ∧
    (truthyTrim (some c3Inl) = true ∧
     jsonParse c3Inl = some (.str (List.replicate 2000001 'a')) ∧
     (stringify2 (.str (List.replicate 2000001 'a')) ++ ['\n']).length > JSON_MAX_BYTES ∧
     resolveJsonSource c3PU c3RemNet (fun _ => []) "T".data none (some c3Inl) c3St =
       (c3St, .err 413 ("json too large (max ".data ++
         (Nat.repr JSON_MAX_BYTES).data ++ ")".data))) := by
  have hbigR : (c3RemNet (requestHeaders c3St.meta
      (⟨"http://u".data, true⟩ : UrlObj).href)).body.length > JSON_MAX_BYTES := by
    show (List.replicate 2000001 'a').length > JSON_MAX_BYTES
    rw [List.length_replicate]
    decide
  have htt : truthyTrim (some c3Inl) = true := truthyTrim_quoted_as 2000001
  have hp : jsonParse c3Inl = some (.str (List.replicate 2000001 'a')) :=
    jsonParse_quoted_as 2000001
  have hbigI : (stringify2 (.str (List.replicate 2000001 'a')) ++ ['\n']).length
      > JSON_MAX_BYTES := by
    rw [stringify2_strRepA_length]
    decide
  refine ⟨⟨by decide, by decide, rfl, hbigR, ?_⟩, ⟨htt, hp, hbigI, ?_⟩⟩
  · exact (C3_size_guard c3PU c3RemNet (fun _ => []) "T".data "http://u".data none c3St
      ⟨"http://u".data, true⟩).1 (by decide) (by decide) rfl rfl hbigR
  · exact (C3_size_guard c3PU c3RemNet (fun _ => []) "T".data "http://u".data none c3St
      ⟨"http://u".data, true⟩).2 c3Inl (.str (List.replicate 2000001 'a')) htt hp hbigI

end ControlPlane
